import Mathlib

/-!
Shallow embedding of the simulation utilities of pspipe_utils
(file pspipe_utils/simulation.py) and verification of its documented
properties.

The module builds noise and foreground covariance tensors from tabulated
power spectra and draws random harmonic-space realizations from them.
External collaborators are modelled explicitly:

* the spectrum readers (so_spectra.read_ps, np.loadtxt) are modelled by
  passing the tabulated file contents as data (PSFile, FgFile);
* the float constant np.pi is abstracted as a rational parameter pi;
* the draw primitive curvedsky.rand_alm is modelled as a function of an
  explicit random-source state, threaded through successive draws;
* numeric values are rationals, so that every definition is executable.
-/

set_option autoImplicit false

namespace PspipeUtils

/-- Content of a measured noise power-spectrum file, as delivered by the
external spectrum reader for the nine requested spectra
TT, TE, TB, ET, BT, EE, EB, BE, BB: a common row count `len`, the multipole
column `ell`, and one column per named spectrum, each indexed by row
number. -/
structure PSFile where
  len : Nat
  ell : Nat → ℚ
  TT : Nat → ℚ
  TE : Nat → ℚ
  TB : Nat → ℚ
  ET : Nat → ℚ
  BT : Nat → ℚ
  EE : Nat → ℚ
  EB : Nat → ℚ
  BE : Nat → ℚ
  BB : Nat → ℚ

/-- Content of a tabulated best-fit foreground TT spectrum file, as delivered
by np.loadtxt with two columns: row count `len`, multipole column `ell` and
power column `fl`. -/
structure FgFile where
  len : Nat
  ell : Nat → ℚ
  fl : Nat → ℚ

/-- Modelled from the spec: `fill_sym_mat` is a shared helper of the codebase
whose source is not among the provided files. Per the spec, given a square
matrix with only the upper triangle populated, it returns the full symmetric
matrix: diagonal unchanged, lower triangle set from the upper triangle
transpose. -/
def fill_sym_mat (m : Nat → Nat → ℚ) : Nat → Nat → ℚ :=
  fun i j => if j < i then m j i else m i j

/-- The first `len` entries of a file column, as a list. A file column
returned by the readers is an array of length `len`. -/
def colList (len : Nat) (col : Nat → ℚ) : List ℚ :=
  (List.range len).map col

/-- Row `i` of the rescaled temperature noise row of one pair: the value
written to nl_array_t[c1, c2, i] for `i < lmax`, namely
nl[TT][:lmax] * nsplits * 2 * np.pi / (l * (l + 1)) with l = l[:lmax]. -/
def nl_t_entry (f : PSFile) (nsplits pi : ℚ) (i : Nat) : ℚ :=
  f.TT i * nsplits * 2 * pi / (f.ell i * (f.ell i + 1))

/-- Row `i` of the rescaled polarization noise row of one pair: the value
written to nl_array_pol[c1, c2, i] for `i < lmax`, namely
(nl[EE][:lmax] + nl[BB][:lmax])/2 * nsplits * 2 * np.pi / (l * (l + 1)). -/
def nl_pol_entry (f : PSFile) (nsplits pi : ℚ) (i : Nat) : ℚ :=
  (f.EE i + f.BB i) / 2 * nsplits * 2 * pi / (f.ell i * (f.ell i + 1))

/-- The temperature tensor after the pair loop and before the symmetrization
loop: np.zeros((n_arrays, n_arrays, lmax)) with the row [c1, c2, :] assigned
for every pair with c1 <= c2 (the loop skips c1 > c2); `files c1 c2` is the
content of the spectrum file read for that pair. -/
def nl_array_t_pre (files : Nat → Nat → PSFile) (n lmax : Nat) (nsplits pi : ℚ)
    (c1 c2 i : Nat) : ℚ :=
  if c1 < n ∧ c2 < n ∧ c1 ≤ c2 ∧ i < lmax then
    nl_t_entry (files c1 c2) nsplits pi i
  else 0

/-- The polarization tensor after the pair loop, before symmetrization. -/
def nl_array_pol_pre (files : Nat → Nat → PSFile) (n lmax : Nat) (nsplits pi : ℚ)
    (c1 c2 i : Nat) : ℚ :=
  if c1 < n ∧ c2 < n ∧ c1 ≤ c2 ∧ i < lmax then
    nl_pol_entry (files c1 c2) nsplits pi i
  else 0

/-- The temperature noise tensor returned by get_noise_matrix_spin0and2:
each multipole slice of the upper-triangular tensor is passed through
fill_sym_mat (the Python loop does so for every slice i < lmax; slices
outside that range do not exist, and here they are identically zero). -/
def nl_array_t (files : Nat → Nat → PSFile) (n lmax : Nat) (nsplits pi : ℚ)
    (c1 c2 i : Nat) : ℚ :=
  fill_sym_mat (fun a b => nl_array_t_pre files n lmax nsplits pi a b i) c1 c2

/-- The polarization noise tensor returned by get_noise_matrix_spin0and2. -/
def nl_array_pol (files : Nat → Nat → PSFile) (n lmax : Nat) (nsplits pi : ℚ)
    (c1 c2 i : Nat) : ℚ :=
  fill_sym_mat (fun a b => nl_array_pol_pre files n lmax nsplits pi a b i) c1 c2

/-- Embedding of get_noise_matrix_spin0and2. The reading of the spectrum
files is modelled by `files`, the content read for each pair c1 <= c2 of the
`n` arrays. Returns the multipole axis l = l[:lmax] as left by the loop (the
truncated column of the last pair read, (n-1, n-1)), the temperature tensor
and the polarization tensor. -/
def get_noise_matrix_spin0and2 (files : Nat → Nat → PSFile) (n lmax : Nat)
    (nsplits pi : ℚ) :
    List ℚ × (Nat → Nat → Nat → ℚ) × (Nat → Nat → Nat → ℚ) :=
  ((colList (files (n - 1) (n - 1)).len (files (n - 1) (n - 1)).ell).take lmax,
   nl_array_t files n lmax nsplits pi,
   nl_array_pol files n lmax nsplits pi)

/-- Row `i` of the rescaled foreground spectrum of one frequency pair:
fl_all * 2 * np.pi / (l * (l + 1)), where l is the multipole column of the
foreground file. -/
def fl_all_entry (f : FgFile) (pi : ℚ) (i : Nat) : ℚ :=
  f.fl i * 2 * pi / (f.ell i * (f.ell i + 1))

/-- The foreground tensor after the pair loop, before symmetrization:
np.zeros((nfreqs, nfreqs, lmax)) with fl_array[c1, c2, 2:lmax] assigned
fl_all[:lmax-2] for every pair c1 <= c2, so tensor index i in [2, lmax)
holds row i - 2 of the rescaled file. -/
def fl_array_pre (files : Nat → Nat → FgFile) (n lmax : Nat) (pi : ℚ)
    (c1 c2 i : Nat) : ℚ :=
  if c1 < n ∧ c2 < n ∧ c1 ≤ c2 ∧ 2 ≤ i ∧ i < lmax then
    fl_all_entry (files c1 c2) pi (i - 2)
  else 0

/-- The foreground tensor returned by get_foreground_matrix, symmetrized
slice by slice. -/
def fl_array (files : Nat → Nat → FgFile) (n lmax : Nat) (pi : ℚ)
    (c1 c2 i : Nat) : ℚ :=
  fill_sym_mat (fun a b => fl_array_pre files n lmax pi a b i) c1 c2

/-- Embedding of get_foreground_matrix. `files` models the np.loadtxt read
for each pair c1 <= c2 of the `n` frequencies. Returns the multipole column
`l` as left by the loop — the full, untruncated column of the last file read
(pair (n-1, n-1)) — and the symmetrized foreground tensor. -/
def get_foreground_matrix (files : Nat → Nat → FgFile) (n lmax : Nat) (pi : ℚ) :
    List ℚ × (Nat → Nat → Nat → ℚ) :=
  (colList (files (n - 1) (n - 1)).len (files (n - 1) (n - 1)).ell,
   fl_array files n lmax pi)

/-- A covariance tensor as consumed by the draw primitive: indices are
array, array, multipole. -/
abbrev CovTensor : Type := Nat → Nat → Nat → ℚ

/-- Component label of a polarized realization: the Python dictionary keys
use the labels T, E, B. -/
inductive Comp where
  | T : Comp
  | E : Comp
  | B : Comp
deriving DecidableEq

/-- Key of the realization dictionary nlms: a bare split index `k` in the
temperature-only branch (nlms[k]), or a component label paired with a split
index in the three-component branch (nlms[T, k] and so on). -/
inductive NlmKey where
  | split : Nat → NlmKey
  | comp : Comp → Nat → NlmKey
deriving DecidableEq

/-- The ncomp == 1 loop of generate_noise_alms: for each split index k, one
draw from the temperature tensor, keyed by k. The draw primitive `rand_alm`
models curvedsky.rand_alm as a function of an explicit random-source state
(type σ), returning an alm array (type α) and the successor state; the
entropy consumption of successive draws is the state threading. -/
def noiseLoopT {σ α : Type} (rand_alm : σ → CovTensor → Nat → α × σ)
    (nl_array_t : CovTensor) (lmax : Nat) :
    List Nat → σ → List (NlmKey × α) × σ
  | [], s => ([], s)
  | k :: ks, s =>
    let pT := rand_alm s nl_array_t lmax
    let rest := noiseLoopT rand_alm nl_array_t lmax ks pT.2
    ((NlmKey.split k, pT.1) :: rest.1, rest.2)

/-- The three-component loop of generate_noise_alms: for each split index k,
one draw from the temperature tensor keyed (T, k), then two further draws
from the polarization tensor keyed (E, k) and (B, k), in that order. Each
iteration applies the draw primitive to nl_array_pol as passed to the call;
the primitive requires an actual covariance tensor (spec section 6), so an
iteration that reaches its first polarization draw with nl_array_pol still
None is the fatal error case — a run over no splits executes no draw and
never fails. -/
def noiseLoopTEB {σ α : Type} (rand_alm : σ → CovTensor → Nat → α × σ)
    (nl_array_t : CovTensor) (nl_array_pol : Option CovTensor) (lmax : Nat) :
    List Nat → σ → Except Unit (List (NlmKey × α) × σ)
  | [], s => Except.ok ([], s)
  | k :: ks, s =>
    let pT := rand_alm s nl_array_t lmax
    match nl_array_pol with
    | none => Except.error ()
    | some pol =>
      let pE := rand_alm pT.2 pol lmax
      let pB := rand_alm pE.2 pol lmax
      match noiseLoopTEB rand_alm nl_array_t nl_array_pol lmax ks pB.2 with
      | Except.error e => Except.error e
      | Except.ok (rest, s2) =>
        Except.ok ((NlmKey.comp Comp.T k, pT.1) :: (NlmKey.comp Comp.E k, pE.1) ::
          (NlmKey.comp Comp.B k, pB.1) :: rest, s2)

/-- Embedding of generate_noise_alms. The realization dictionary is the list
of key/value pairs in insertion order (all keys distinct). The branch on
ncomp == 1 is the Python branch; in the other branch the loop itself draws
from nl_array_pol, failing at the first polarization draw when it is None,
so no splits means no failure. The dtype argument, a pure precision tag
forwarded to the primitive, is omitted. -/
def generate_noise_alms {σ α : Type} (rand_alm : σ → CovTensor → Nat → α × σ)
    (s : σ) (nl_array_t : CovTensor) (lmax n_splits ncomp : Nat)
    (nl_array_pol : Option CovTensor) :
    Except Unit (List (NlmKey × α) × σ) :=
  if ncomp = 1 then
    Except.ok (noiseLoopT rand_alm nl_array_t lmax (List.range n_splits) s)
  else
    noiseLoopTEB rand_alm nl_array_t nl_array_pol lmax (List.range n_splits) s

/-- Division with an explicit error case at a zero denominator, used to
express reachability of the division by zero in the rescaling step. -/
def checked_div (a b : ℚ) : Option ℚ :=
  if b = 0 then none else some (a / b)

/-- The temperature rescaling of get_noise_matrix_spin0and2 with its
division guarded: the code itself divides with no guard. -/
def nl_t_entry_checked (f : PSFile) (nsplits pi : ℚ) (i : Nat) : Option ℚ :=
  checked_div (f.TT i * nsplits * 2 * pi) (f.ell i * (f.ell i + 1))

/-- A concrete noise spectrum file used in witnesses: six rows, multipole
column 2..7, constant TT, EE and BB columns. -/
def psFileA : PSFile where
  len := 6
  ell := fun i => (i : ℚ) + 2
  TT := fun _ => 5
  TE := fun _ => 0
  TB := fun _ => 0
  ET := fun _ => 0
  BT := fun _ => 0
  EE := fun _ => 3
  EB := fun _ => 0
  BE := fun _ => 0
  BB := fun _ => 7

/-- A concrete noise spectrum file whose multipole column starts at 0, used
to exhibit the division by zero of the rescaling. -/
def psFileB : PSFile where
  len := 6
  ell := fun i => (i : ℚ)
  TT := fun _ => 5
  TE := fun _ => 0
  TB := fun _ => 0
  ET := fun _ => 0
  BT := fun _ => 0
  EE := fun _ => 3
  EB := fun _ => 0
  BE := fun _ => 0
  BB := fun _ => 7

/-- A concrete foreground file used in witnesses: six rows, multipole column
2..7, constant power column. -/
def fgFileA : FgFile where
  len := 6
  ell := fun i => (i : ℚ) + 2
  fl := fun _ => 4

/-! Helper lemmas about the modelled Symmetrizer. -/

theorem fill_sym_mat_symm (m : Nat → Nat → ℚ) (i j : Nat) :
    fill_sym_mat m i j = fill_sym_mat m j i := by
  unfold fill_sym_mat
  rcases Nat.lt_trichotomy i j with h | h | h
  · rw [if_neg (Nat.not_lt.mpr (Nat.le_of_lt h)), if_pos h]
  · subst h; rfl
  · rw [if_pos h, if_neg (Nat.not_lt.mpr (Nat.le_of_lt h))]

theorem fill_sym_mat_upper (m : Nat → Nat → ℚ) (i j : Nat) (h : i ≤ j) :
    fill_sym_mat m i j = m i j :=
  if_neg (Nat.not_lt.mpr h)

/-- C2: every tensor produced by the Matrix Assembler — the temperature and
polarization noise tensors of get_noise_matrix_spin0and2 and the foreground
tensor of get_foreground_matrix — is symmetric under a swap of its first two
indices, at every index pair and every multipole. -/
theorem assembler_tensors_symmetric (nfiles : Nat → Nat → PSFile)
    (ffiles : Nat → Nat → FgFile) (n lmax : Nat) (nsplits pi : ℚ) (c1 c2 i : Nat) :
    nl_array_t nfiles n lmax nsplits pi c1 c2 i
      = nl_array_t nfiles n lmax nsplits pi c2 c1 i
    ∧ nl_array_pol nfiles n lmax nsplits pi c1 c2 i
      = nl_array_pol nfiles n lmax nsplits pi c2 c1 i
    ∧ fl_array ffiles n lmax pi c1 c2 i
      = fl_array ffiles n lmax pi c2 c1 i := by
  refine ⟨?_, ?_, ?_⟩
  · exact fill_sym_mat_symm (fun a b => nl_array_t_pre nfiles n lmax nsplits pi a b i) c1 c2
  · exact fill_sym_mat_symm (fun a b => nl_array_pol_pre nfiles n lmax nsplits pi a b i) c1 c2
  · exact fill_sym_mat_symm (fun a b => fl_array_pre ffiles n lmax pi a b i) c1 c2

/-- C1: every populated entry (c1 <= c2 < n, row i < lmax of the truncated
multipole axis) of the temperature tensor equals the TT value of the pair at
that row times nsplits * 2 * pi / (l * (l + 1)) with l the multipole there,
and the polarization entry equals the average of the EE and BB values times
the same factor; in particular a constant TT column of value C gives a
diagonal entry C * nsplits * 2 * pi / (l * (l + 1)). -/
theorem noise_matrix_entry_values (files : Nat → Nat → PSFile) (n lmax : Nat)
    (nsplits pi : ℚ) (c1 c2 i : Nat)
    (h12 : c1 ≤ c2) (h2 : c2 < n) (hi : i < lmax) :
    nl_array_t files n lmax nsplits pi c1 c2 i
      = (files c1 c2).TT i * nsplits * 2 * pi
        / ((files c1 c2).ell i * ((files c1 c2).ell i + 1))
    ∧ nl_array_pol files n lmax nsplits pi c1 c2 i
      = ((files c1 c2).EE i + (files c1 c2).BB i) / 2 * nsplits * 2 * pi
        / ((files c1 c2).ell i * ((files c1 c2).ell i + 1))
    ∧ ∀ C : ℚ, (∀ j, j < lmax → (files c2 c2).TT j = C) →
        nl_array_t files n lmax nsplits pi c2 c2 i
          = C * nsplits * 2 * pi
            / ((files c2 c2).ell i * ((files c2 c2).ell i + 1)) := by
  have h1 : c1 < n := Nat.lt_of_le_of_lt h12 h2
  refine ⟨?_, ?_, ?_⟩
  · show fill_sym_mat _ c1 c2 = _
    rw [fill_sym_mat_upper _ c1 c2 h12]
    unfold nl_array_t_pre
    rw [if_pos ⟨h1, h2, h12, hi⟩]
    rfl
  · show fill_sym_mat _ c1 c2 = _
    rw [fill_sym_mat_upper _ c1 c2 h12]
    unfold nl_array_pol_pre
    rw [if_pos ⟨h1, h2, h12, hi⟩]
    rfl
  · intro C hC
    show fill_sym_mat _ c2 c2 = _
    rw [fill_sym_mat_upper _ c2 c2 (Nat.le_refl c2)]
    unfold nl_array_t_pre
    rw [if_pos ⟨h2, h2, Nat.le_refl c2, hi⟩]
    unfold nl_t_entry
    rw [hC i hi]

/-- Witness for C1 at a concrete input: two arrays, the same six-row file for
every pair, lmax = 3, nsplits = 2, pi = 1, entry (0, 1) at row 2. -/
theorem noise_matrix_entry_values_witness :
    (0 : Nat) ≤ 1 ∧ (1 : Nat) < 2 ∧ (2 : Nat) < 3 ∧
    (nl_array_t (fun _ _ => psFileA) 2 3 2 1 0 1 2
      = psFileA.TT 2 * 2 * 2 * 1 / (psFileA.ell 2 * (psFileA.ell 2 + 1))
    ∧ nl_array_pol (fun _ _ => psFileA) 2 3 2 1 0 1 2
      = (psFileA.EE 2 + psFileA.BB 2) / 2 * 2 * 2 * 1
        / (psFileA.ell 2 * (psFileA.ell 2 + 1))
    ∧ ∀ C : ℚ, (∀ j, j < 3 → psFileA.TT j = C) →
        nl_array_t (fun _ _ => psFileA) 2 3 2 1 1 1 2
          = C * 2 * 2 * 1 / (psFileA.ell 2 * (psFileA.ell 2 + 1))) :=
  ⟨Nat.le_succ 0, by decide, by decide,
   noise_matrix_entry_values (fun _ _ => psFileA) 2 3 2 1 0 1 2
     (by decide) (by decide) (by decide)⟩

/-- C5: the foreground tensor is exactly zero at multipole indices 0 and 1,
for every pair of indices and whatever the file contents are. -/
theorem foreground_low_multipoles_zero (files : Nat → Nat → FgFile)
    (n lmax : Nat) (pi : ℚ) (c1 c2 : Nat) :
    fl_array files n lmax pi c1 c2 0 = 0 ∧ fl_array files n lmax pi c1 c2 1 = 0 := by
  constructor <;>
    · unfold fl_array fill_sym_mat fl_array_pre
      split <;> simp

/-- C6: for a pair c1 <= c2 < n and a multipole l with 2 <= l < lmax, when
the multipole column of the file of the pair runs 2, 3, 4, ... (row j holds
multipole j + 2, the usual layout of the tabulated spectra), the foreground
tensor entry at [c1, c2, l] is the tabulated value at multipole l — row
l - 2 of the file — rescaled by 2 * pi / (l * (l + 1)). -/
theorem foreground_entry_value (files : Nat → Nat → FgFile) (n lmax : Nat)
    (pi : ℚ) (c1 c2 l : Nat)
    (h12 : c1 ≤ c2) (h2 : c2 < n) (hl2 : 2 ≤ l) (hl : l < lmax)
    (hell : ∀ j, (files c1 c2).ell j = (j : ℚ) + 2) :
    fl_array files n lmax pi c1 c2 l
      = (files c1 c2).fl (l - 2) * 2 * pi / ((l : ℚ) * ((l : ℚ) + 1)) := by
  have h1 : c1 < n := Nat.lt_of_le_of_lt h12 h2
  show fill_sym_mat _ c1 c2 = _
  rw [fill_sym_mat_upper _ c1 c2 h12]
  unfold fl_array_pre
  rw [if_pos ⟨h1, h2, h12, hl2, hl⟩]
  unfold fl_all_entry
  rw [hell (l - 2)]
  have hc : ((l - 2 : Nat) : ℚ) + 2 = (l : ℚ) := by
    have h := Nat.sub_add_cancel hl2
    exact_mod_cast congrArg (Nat.cast : Nat → ℚ) h
  rw [hc]

/-- Witness for C6 at a concrete input: one frequency, a six-row file with
multipole column 2..7, lmax = 4, multipole 3 (row 1 of the file). -/
theorem foreground_entry_value_witness :
    (0 : Nat) ≤ 0 ∧ (0 : Nat) < 1 ∧ (2 : Nat) ≤ 3 ∧ (3 : Nat) < 4 ∧
    (∀ j, fgFileA.ell j = (j : ℚ) + 2) ∧
    fl_array (fun _ _ => fgFileA) 1 4 1 0 0 3
      = fgFileA.fl 1 * 2 * 1 / (((3 : Nat) : ℚ) * (((3 : Nat) : ℚ) + 1)) :=
  ⟨Nat.le_refl 0, by decide, by decide, by decide, fun _ => rfl,
   foreground_entry_value (fun _ _ => fgFileA) 1 4 1 0 0 3
     (by decide) (by decide) (by decide) (by decide) (fun _ => rfl)⟩

/-- C7, counterexample: the multipole axis returned by get_foreground_matrix
is not truncated to lmax entries. With one frequency, a six-row file and
lmax = 4, the returned axis has 6 entries, not 4. -/
theorem fg_multipole_axis_cex :
    ¬ ((get_foreground_matrix (fun _ _ => fgFileA) 1 4 1).1.length = 4)
    ∧ (get_foreground_matrix (fun _ _ => fgFileA) 1 4 1).1.length = 6 := by
  constructor
  · intro h
    simp [get_foreground_matrix, colList, fgFileA] at h
  · simp [get_foreground_matrix, colList, fgFileA]

/-- C7, amended: the multipole axis returned by get_foreground_matrix is the
full multipole column of the last input file read — the one of the self pair
(n-1, n-1) — untruncated: whatever lmax is, its length is the row count of
that file and its entries are that column; only the tensor itself has
multipole extent lmax (with indices 0 and 1 zero). -/
theorem fg_multipole_axis_full_column (files : Nat → Nat → FgFile)
    (n lmax : Nat) (pi : ℚ) :
    (get_foreground_matrix files n lmax pi).1.length = (files (n - 1) (n - 1)).len
    ∧ ∀ i, i < (files (n - 1) (n - 1)).len →
        (get_foreground_matrix files n lmax pi).1.getD i 0
          = (files (n - 1) (n - 1)).ell i := by
  constructor
  · simp [get_foreground_matrix, colList]
  · intro i hi
    simp [get_foreground_matrix, colList, List.getD_eq_getElem?_getD,
      List.getElem?_map, List.getElem?_range, hi]

/-- Witness for C7 (amended) at a concrete input: one frequency, a six-row
file, lmax = 4. -/
theorem fg_multipole_axis_full_column_witness :
    (get_foreground_matrix (fun _ _ => fgFileA) 1 4 1).1.length = fgFileA.len
    ∧ ∀ i, i < fgFileA.len →
        (get_foreground_matrix (fun _ _ => fgFileA) 1 4 1).1.getD i 0
          = fgFileA.ell i :=
  fg_multipole_axis_full_column (fun _ _ => fgFileA) 1 4 1

/-- C8: the rescaling of get_noise_matrix_spin0and2 divides by l * (l + 1)
with no guard. With the division made checked, whenever a row of the
truncated multipole axis holds l = 0 the zero-denominator case is reached
there, and whenever every multipole is at least 1 the checked rescaling
succeeds and agrees with the unguarded one. -/
theorem noise_rescaling_div_by_zero (f : PSFile) (nsplits pi : ℚ) (i : Nat) :
    (f.ell i = 0 → nl_t_entry_checked f nsplits pi i = none)
    ∧ (1 ≤ f.ell i →
        nl_t_entry_checked f nsplits pi i = some (nl_t_entry f nsplits pi i)) := by
  constructor
  · intro h0
    unfold nl_t_entry_checked checked_div
    rw [h0]
    simp
  · intro h1
    have hpos : (0 : ℚ) < f.ell i * (f.ell i + 1) := by
      have ha : (0 : ℚ) < f.ell i := lt_of_lt_of_le zero_lt_one h1
      have hb : (0 : ℚ) < f.ell i + 1 := by linarith
      exact mul_pos ha hb
    unfold nl_t_entry_checked checked_div nl_t_entry
    rw [if_neg (ne_of_gt hpos)]

/-- Witness for C8 at a concrete file whose multipole column starts at 0:
row 0 reaches the zero-denominator case, row 1 (multipole 1) does not. -/
theorem noise_rescaling_div_by_zero_witness :
    (psFileB.ell 0 = 0 ∧ nl_t_entry_checked psFileB 1 1 0 = none)
    ∧ (1 ≤ psFileB.ell 1
        ∧ nl_t_entry_checked psFileB 1 1 1 = some (nl_t_entry psFileB 1 1 1)) :=
  ⟨⟨by simp [psFileB], (noise_rescaling_div_by_zero psFileB 1 1 0).1 (by simp [psFileB])⟩,
   ⟨by simp [psFileB], (noise_rescaling_div_by_zero psFileB 1 1 1).2 (by simp [psFileB])⟩⟩

/-! Helper lemmas about the key structure of the realization dictionary. -/

theorem noiseLoopT_keys {σ α : Type} (rand_alm : σ → CovTensor → Nat → α × σ)
    (t : CovTensor) (lmax : Nat) (ks : List Nat) (s : σ) :
    (noiseLoopT rand_alm t lmax ks s).1.map Prod.fst = ks.map NlmKey.split := by
  induction ks generalizing s with
  | nil => rfl
  | cons k ks ih => simp [noiseLoopT, ih]

theorem noiseLoopTEB_none {σ α : Type} (rand_alm : σ → CovTensor → Nat → α × σ)
    (t : CovTensor) (lmax k : Nat) (ks : List Nat) (s : σ) :
    noiseLoopTEB rand_alm t none lmax (k :: ks) s = Except.error () := by
  simp [noiseLoopTEB]

theorem noiseLoopTEB_some {σ α : Type} (rand_alm : σ → CovTensor → Nat → α × σ)
    (t p : CovTensor) (lmax : Nat) (ks : List Nat) (s : σ) :
    ∃ d s2, noiseLoopTEB rand_alm t (some p) lmax ks s = Except.ok (d, s2)
      ∧ d.map Prod.fst = ks.flatMap (fun k =>
          [NlmKey.comp Comp.T k, NlmKey.comp Comp.E k, NlmKey.comp Comp.B k])
      ∧ d.length = 3 * ks.length := by
  induction ks generalizing s with
  | nil => exact ⟨[], s, rfl, rfl, rfl⟩
  | cons k ks ih =>
    obtain ⟨d, s2, hok, hkeys, hlen⟩ :=
      ih (rand_alm (rand_alm (rand_alm s t lmax).2 p lmax).2 p lmax).2
    refine ⟨(NlmKey.comp Comp.T k, (rand_alm s t lmax).1) ::
      (NlmKey.comp Comp.E k, (rand_alm (rand_alm s t lmax).2 p lmax).1) ::
      (NlmKey.comp Comp.B k,
        (rand_alm (rand_alm (rand_alm s t lmax).2 p lmax).2 p lmax).1) :: d,
      s2, ?_, ?_, ?_⟩
    · simp [noiseLoopTEB, hok]
    · simp [hkeys]
    · simp only [List.length_cons, hlen, List.length_cons]
      omega

/-- C3, counterexample: with ncomp = 3, nl_array_pol left at None and zero
splits, the three-component loop body never executes, no draw touches the
unset tensor, and the call returns an empty realization dictionary instead
of failing. -/
theorem generate_noise_alms_pol_unset_cex :
    generate_noise_alms (σ := Nat) (α := Nat) (fun s _ _ => (s, s + 1)) 0
        (fun _ _ _ => 0) 3 0 3 none = Except.ok ([], 0)
    ∧ generate_noise_alms (σ := Nat) (α := Nat) (fun s _ _ => (s, s + 1)) 0
        (fun _ _ _ => 0) 3 0 3 none ≠ Except.error () :=
  ⟨rfl, fun h => Except.noConfusion h⟩

/-- C3 (amended): calling generate_noise_alms with ncomp = 3, nl_array_pol
left at its default None and at least one split is fatal: the first
polarization draw fails and the call returns no realization dictionary.
With zero splits no draw executes and the call returns an empty
dictionary. -/
theorem generate_noise_alms_pol_unset_fatal {σ α : Type}
    (rand_alm : σ → CovTensor → Nat → α × σ) (s : σ) (nl_array_t : CovTensor)
    (lmax n_splits : Nat) (h : 1 ≤ n_splits) :
    generate_noise_alms rand_alm s nl_array_t lmax n_splits 3 none
      = Except.error () := by
  unfold generate_noise_alms
  rw [if_neg (by decide : (3 : Nat) ≠ 1)]
  cases n_splits with
  | zero => omega
  | succ m =>
    rw [List.range_succ_eq_map]
    exact noiseLoopTEB_none rand_alm nl_array_t lmax 0 ((List.range m).map Nat.succ) s

/-- Witness for C3 (amended) at a concrete input: one split, a counter as
random state. -/
theorem generate_noise_alms_pol_unset_fatal_witness :
    (1 : Nat) ≤ 1 ∧
    generate_noise_alms (σ := Nat) (α := Nat) (fun s _ _ => (s, s + 1)) 0
        (fun _ _ _ => 0) 3 1 3 none = Except.error () :=
  ⟨Nat.le_refl 1,
   generate_noise_alms_pol_unset_fatal (fun s _ _ => (s, s + 1)) 0
     (fun _ _ _ => 0) 3 1 (Nat.le_refl 1)⟩

/-- C4: a successful call of generate_noise_alms with ncomp = 1 returns a
dictionary whose keys are exactly the split indices 0 .. n_splits - 1, so
exactly n_splits keys; with ncomp = 3 and a polarization tensor, the keys
are exactly the pairs (component, split) with the component running over
T, E, B and the split over 0 .. n_splits - 1, so exactly 3 * n_splits
keys. -/
theorem generate_noise_alms_key_set {σ α : Type}
    (rand_alm : σ → CovTensor → Nat → α × σ) (s : σ) (nl_array_t : CovTensor)
    (lmax n_splits : Nat) (pol : Option CovTensor) (p : CovTensor) :
    (∃ d s1, generate_noise_alms rand_alm s nl_array_t lmax n_splits 1 pol
        = Except.ok (d, s1)
      ∧ d.map Prod.fst = (List.range n_splits).map NlmKey.split
      ∧ d.length = n_splits)
    ∧ (∃ d s3, generate_noise_alms rand_alm s nl_array_t lmax n_splits 3 (some p)
        = Except.ok (d, s3)
      ∧ d.map Prod.fst = (List.range n_splits).flatMap (fun k =>
          [NlmKey.comp Comp.T k, NlmKey.comp Comp.E k, NlmKey.comp Comp.B k])
      ∧ d.length = 3 * n_splits) := by
  constructor
  · refine ⟨(noiseLoopT rand_alm nl_array_t lmax (List.range n_splits) s).1,
      (noiseLoopT rand_alm nl_array_t lmax (List.range n_splits) s).2, rfl,
      noiseLoopT_keys rand_alm nl_array_t lmax (List.range n_splits) s, ?_⟩
    have h := congrArg List.length
      (noiseLoopT_keys rand_alm nl_array_t lmax (List.range n_splits) s)
    simpa using h
  · have e : generate_noise_alms rand_alm s nl_array_t lmax n_splits 3 (some p)
        = noiseLoopTEB rand_alm nl_array_t (some p) lmax (List.range n_splits) s := by
      unfold generate_noise_alms
      rw [if_neg (by decide : (3 : Nat) ≠ 1)]
    obtain ⟨d, s3, hok, hkeys, hlen⟩ :=
      noiseLoopTEB_some rand_alm nl_array_t p lmax (List.range n_splits) s
    exact ⟨d, s3, by rw [e, hok], hkeys, by rw [hlen, List.length_range]⟩

/-- C9: with ncomp = 1 the polarization tensor is never touched: two calls of
generate_noise_alms agreeing on the draw primitive, the random-source state
and every other input, but differing arbitrarily in nl_array_pol (either may
be None), return the same realization dictionary and final state. -/
theorem generate_noise_alms_ncomp1_ignores_pol {σ α : Type}
    (rand_alm : σ → CovTensor → Nat → α × σ) (s : σ) (nl_array_t : CovTensor)
    (lmax n_splits : Nat) (pol1 pol2 : Option CovTensor) :
    generate_noise_alms rand_alm s nl_array_t lmax n_splits 1 pol1
      = generate_noise_alms rand_alm s nl_array_t lmax n_splits 1 pol2 := rfl

/-- C10: generate_noise_alms branches only on whether ncomp equals 1: any
ncomp other than 1 — not only the documented value 3 — behaves exactly like
ncomp = 3, and with a polarization tensor supplied the call succeeds (no
validation of ncomp itself) and returns the dictionary keyed by (T, k),
(E, k), (B, k) for each split k, drawn using nl_array_pol. -/
theorem generate_noise_alms_branch_on_one {σ α : Type}
    (rand_alm : σ → CovTensor → Nat → α × σ) (s : σ) (nl_array_t : CovTensor)
    (lmax n_splits ncomp : Nat) (p : CovTensor) (h : ncomp ≠ 1) :
    (∀ pol, generate_noise_alms rand_alm s nl_array_t lmax n_splits ncomp pol
      = generate_noise_alms rand_alm s nl_array_t lmax n_splits 3 pol)
    ∧ ∃ d s2, generate_noise_alms rand_alm s nl_array_t lmax n_splits ncomp (some p)
        = Except.ok (d, s2)
      ∧ d.map Prod.fst = (List.range n_splits).flatMap (fun k =>
          [NlmKey.comp Comp.T k, NlmKey.comp Comp.E k, NlmKey.comp Comp.B k]) := by
  have h3 : (3 : Nat) ≠ 1 := by decide
  have hbr : ∀ pol, generate_noise_alms rand_alm s nl_array_t lmax n_splits ncomp pol
      = generate_noise_alms rand_alm s nl_array_t lmax n_splits 3 pol := by
    intro pol
    unfold generate_noise_alms
    rw [if_neg h, if_neg h3]
  refine ⟨hbr, ?_⟩
  have e : generate_noise_alms rand_alm s nl_array_t lmax n_splits ncomp (some p)
      = noiseLoopTEB rand_alm nl_array_t (some p) lmax (List.range n_splits) s := by
    unfold generate_noise_alms
    rw [if_neg h]
  obtain ⟨d, s2, hok, hkeys, _⟩ :=
    noiseLoopTEB_some rand_alm nl_array_t p lmax (List.range n_splits) s
  exact ⟨d, s2, by rw [e, hok], hkeys⟩

/-- Witness for C10 at a concrete input: ncomp = 2, a counter as random
state, two splits. -/
theorem generate_noise_alms_branch_on_one_witness :
    (2 : Nat) ≠ 1 ∧
    ((∀ pol, generate_noise_alms (fun s _ _ => (s, s + 1)) 0
          (fun _ _ _ => 0) 3 2 2 pol
        = generate_noise_alms (fun s _ _ => (s, s + 1)) 0
          (fun _ _ _ => 0) 3 2 3 pol)
    ∧ ∃ d s2, generate_noise_alms (fun s _ _ => (s, s + 1)) 0
          (fun _ _ _ => 0) 3 2 2 (some fun _ _ _ => 0)
        = Except.ok (d, s2)
      ∧ d.map Prod.fst = (List.range 2).flatMap (fun k =>
          [NlmKey.comp Comp.T k, NlmKey.comp Comp.E k, NlmKey.comp Comp.B k])) :=
  ⟨by decide,
   generate_noise_alms_branch_on_one (σ := Nat) (α := Nat)
     (fun s _ _ => (s, s + 1)) 0 (fun _ _ _ => 0) 3 2 2
     (fun _ _ _ => 0) (by decide)⟩

end PspipeUtils
